import Mathlib

/-!
Verification of the image-metadata repository: a shallow embedding of the
metadata model, the redaction and transformation engine, the AI heuristic
detector and the batch orchestration logic, together with proofs of the
specified properties.

Source files embedded: src/exif_utils.py, src/ai_detect.py, src/actions.py,
src/cli.py.  Machine integers are modelled as Nat/Int; Python dicts keyed by
tag id are modelled as ordered association lists (Python dicts preserve
insertion order); fallible code returns Option/Except.
-/

set_option maxRecDepth 10000

/-! ## Generic list helpers -/

/-- Boolean contiguous-sublist (substring) test, modelling the Python
`needle in haystack` operator on str / bytes. -/
def isSubList [BEq α] (n : List α) : List α → Bool
  | [] => n.isEmpty
  | a :: t => n.isPrefixOf (a :: t) || isSubList n t

/-- The last `k` elements of a list, modelling the Python slice `l[-k:]`. -/
def takeLast (k : Nat) (l : List α) : List α := l.drop (l.length - k)

/-- Split a list into consecutive chunks of size `n` (last chunk may be
shorter), modelling repeated `f.read(n)`. -/
def chunksOf (n : Nat) (l : List α) : List (List α) :=
  match l with
  | [] => []
  | a :: t =>
    if _h : n = 0 then []
    else (a :: t).take n :: chunksOf n ((a :: t).drop n)
termination_by l.length
decreasing_by
  simp only [List.length_drop, List.length_cons]
  omega

theorem isSubList_correct [DecidableEq α] (n h : List α) :
    isSubList n h = true ↔ n <:+: h := by
  induction h with
  | nil =>
    simp [isSubList, List.isEmpty_iff, List.infix_nil]
  | cons a t ih =>
    simp only [isSubList, Bool.or_eq_true, List.isPrefixOf_iff_prefix, ih]
    constructor
    · rintro (hp | hi)
      · exact hp.isInfix
      · exact hi.trans (List.infix_cons (List.infix_refl t))
    · intro hi
      rcases List.infix_cons_iff.mp hi with hp | hi
      · exact Or.inl hp
      · exact Or.inr hi

theorem takeLast_suffix (k : Nat) (l : List α) : takeLast k l <:+ l :=
  List.drop_suffix _ _

theorem suffix_takeLast {c W : List α} (hs : c <:+ W) (k : Nat)
    (hlen : c.length ≤ k) : c <:+ takeLast k W := by
  rcases hs with ⟨w, rfl⟩
  unfold takeLast
  rw [List.length_append, List.drop_append_eq_append_drop]
  have h2 : w.length + c.length - k - w.length = 0 := by omega
  rw [h2, List.drop_zero]
  exact ⟨_, rfl⟩

theorem flatten_chunksOf (n : Nat) (hn : n ≠ 0) (l : List α) :
    (chunksOf n l).flatten = l := by
  refine chunksOf.induct n (fun l => (chunksOf n l).flatten = l) ?_ ?_ ?_ l
  · simp [chunksOf.eq_def]
  · intro a t h; exact absurd h hn
  · intro a t h ih
    show (chunksOf n (a :: t)).flatten = a :: t
    rw [chunksOf.eq_def]
    simp only [dif_neg h, List.flatten_cons, ih]
    exact List.take_append_drop _ _

theorem chunksOf_ne_nil (n : Nat) (l : List α) :
    ∀ c ∈ chunksOf n l, c ≠ [] := by
  refine chunksOf.induct n (fun l => ∀ c ∈ chunksOf n l, c ≠ []) ?_ ?_ ?_ l
  · simp [chunksOf.eq_def]
  · intro a t h; simp [chunksOf.eq_def, h]
  · intro a t h ih
    show ∀ c ∈ chunksOf n (a :: t), c ≠ []
    rw [chunksOf.eq_def]
    simp only [dif_neg h]
    intro c hc
    rcases List.mem_cons.mp hc with rfl | hc
    · simp [List.take_eq_nil_iff, h]
    · exact ih c hc

/-! ## Bytes and text helpers (Python str/bytes operations restricted to the
inputs this program feeds them: ASCII keyword tables and tag text) -/

/-- ASCII lower-casing of one byte, modelling Python `bytes.lower()`. -/
def toLowerByte (b : Nat) : Nat := if 65 ≤ b && b ≤ 90 then b + 32 else b

/-- `bytes.lower()` over a whole byte string. -/
def lowerBytes (l : List Nat) : List Nat := l.map toLowerByte

/-- ASCII lower-casing of a character, modelling Python `str.lower()` on the
ASCII strings this program handles. -/
def lowerChar (c : Char) : Char :=
  if 65 ≤ c.toNat && c.toNat ≤ 90 then Char.ofNat (c.toNat + 32) else c

/-- `str.lower()` over a string. -/
def lowerStr (s : String) : String := String.mk (s.data.map lowerChar)

/-- UTF-8 encoding of one character, modelling `str.encode("utf-8")`. -/
def utf8EncodeChar (c : Char) : List Nat :=
  let cp := c.toNat
  if cp < 128 then [cp]
  else if cp < 2048 then [192 + cp / 64, 128 + cp % 64]
  else if cp < 65536 then [224 + cp / 4096, 128 + (cp / 64) % 64, 128 + cp % 64]
  else [240 + cp / 262144, 128 + (cp / 4096) % 64, 128 + (cp / 64) % 64, 128 + cp % 64]

/-- UTF-8 encoding of a string. -/
def utf8Encode (s : String) : List Nat := (s.data.map utf8EncodeChar).flatten

/-- Is `b` a UTF-8 continuation byte. -/
def isContByte (b : Nat) : Bool := 128 ≤ b && b ≤ 191

/-- Valid second byte of a three-byte UTF-8 sequence with lead `b`. -/
def isCont2Of3 (b c : Nat) : Bool :=
  if b = 224 then 160 ≤ c && c ≤ 191
  else if b = 237 then 128 ≤ c && c ≤ 159
  else isContByte c

/-- Valid second byte of a four-byte UTF-8 sequence with lead `b`. -/
def isCont2Of4 (b c : Nat) : Bool :=
  if b = 240 then 144 ≤ c && c ≤ 191
  else if b = 244 then 128 ≤ c && c ≤ 143
  else isContByte c

/-- One decoding step of Python `bytes.decode("utf-8", errors="ignore")`:
given the lead byte and the remaining bytes, return the decoded character
(none when the sequence is invalid and gets skipped) and how many bytes
beyond the lead are consumed (maximal valid subpart, as CPython does). -/
def utf8Step (b : Nat) (rest : List Nat) : Option Char × Nat :=
  if b ≤ 127 then (some (Char.ofNat b), 0)
  else if 194 ≤ b && b ≤ 223 then
    match rest with
    | c :: _ => if isContByte c then (some (Char.ofNat ((b - 192) * 64 + (c - 128))), 1) else (none, 0)
    | [] => (none, 0)
  else if 224 ≤ b && b ≤ 239 then
    match rest with
    | c :: rest2 =>
      if isCont2Of3 b c then
        match rest2 with
        | d :: _ =>
          if isContByte d then (some (Char.ofNat ((b - 224) * 4096 + (c - 128) * 64 + (d - 128))), 2)
          else (none, 1)
        | [] => (none, 1)
      else (none, 0)
    | [] => (none, 0)
  else if 240 ≤ b && b ≤ 244 then
    match rest with
    | c :: rest2 =>
      if isCont2Of4 b c then
        match rest2 with
        | d :: rest3 =>
          if isContByte d then
            match rest3 with
            | e :: _ =>
              if isContByte e then
                (some (Char.ofNat ((b - 240) * 262144 + (c - 128) * 4096 + (d - 128) * 64 + (e - 128))), 3)
              else (none, 2)
            | [] => (none, 2)
          else (none, 1)
        | [] => (none, 1)
      else (none, 0)
    | [] => (none, 0)
  else (none, 0)

/-- Python `bytes.decode("utf-8", errors="ignore")`: decode, silently skipping
invalid sequences. Total: with errors="ignore" the decoder never raises. -/
def utf8DecodeIgnore (l : List Nat) : List Char :=
  match l with
  | [] => []
  | b :: rest =>
    let s := utf8Step b rest
    (match s.1 with | some c => [c] | none => []) ++ utf8DecodeIgnore (rest.drop s.2)
termination_by l.length
decreasing_by
  simp only [List.length_cons, List.length_drop]
  omega

/-- One decoding step of Python `bytes.decode("utf-16le", errors="ignore")`:
given one little-endian code unit and the remaining bytes, return the decoded
character (none for lone surrogates, which are skipped) and how many bytes
beyond the two-byte unit are consumed. -/
def utf16Step (b0 b1 : Nat) (rest : List Nat) : Option Char × Nat :=
  let u := b0 + 256 * b1
  if 55296 ≤ u && u ≤ 56319 then
    match rest with
    | c0 :: c1 :: _ =>
      let v := c0 + 256 * c1
      if 56320 ≤ v && v ≤ 57343 then
        (some (Char.ofNat (65536 + (u - 55296) * 1024 + (v - 56320))), 2)
      else (none, 0)
    | _ => (none, 0)
  else if 56320 ≤ u && u ≤ 57343 then (none, 0)
  else (some (Char.ofNat u), 0)

/-- Python `bytes.decode("utf-16le", errors="ignore")`: little-endian code
units, surrogate pairs combined, lone surrogates and truncated data skipped. -/
def utf16leDecodeIgnore (l : List Nat) : List Char :=
  match l with
  | [] => []
  | [_] => []
  | b0 :: b1 :: rest =>
    let s := utf16Step b0 b1 rest
    (match s.1 with | some c => [c] | none => []) ++ utf16leDecodeIgnore (rest.drop s.2)
termination_by l.length
decreasing_by
  simp only [List.length_cons, List.length_drop]
  omega

/-- Python `bytes.decode("latin-1", errors="ignore")`: every byte maps to the
character with the same code point; never fails. -/
def latin1DecodeIgnore (l : List Nat) : List Char := l.map Char.ofNat

/-- Python `str.rstrip("\x00")`: drop all trailing NUL characters. -/
def rstripNul (cs : List Char) : List Char :=
  (cs.reverse.dropWhile (fun c => c == Char.ofNat 0)).reverse

/-- One lowercase hex digit. -/
def hexDigit (n : Nat) : Char :=
  if n < 10 then Char.ofNat (48 + n) else Char.ofNat (87 + n)

/-- Python `bytes.hex()`: two lowercase hex digits per byte. -/
def bytesHex (l : List Nat) : String :=
  String.mk ((l.map (fun b => [hexDigit (b / 16), hexDigit (b % 16)])).flatten)

/-! ## Metadata model (src/exif_utils.py)

A piexif EXIF dict has the four IFD groups "0th", "Exif", "GPS", "1st" plus
the raw thumbnail blob.  Each group is a Python dict from numeric tag id to a
value; Python dicts preserve insertion order, so a group is modelled as an
ordered association list with unique keys. -/

/-- A single EXIF tag value: int, rational `(num, den)` tuple, byte string,
Python str (as written by the transformation engine), or list of rationals. -/
inductive TagValue where
  | intVal (i : Int)
  | ratVal (num den : Int)
  | bytesVal (b : List Nat)
  | strVal (s : String)
  | ratListVal (l : List (Int × Int))
deriving DecidableEq

/-- A piexif EXIF dict after `ensure_exif_structure`: the four groups are
always present (possibly empty) plus the optional thumbnail blob. -/
structure ExifDict where
  zeroth : List (Nat × TagValue)
  exifIfd : List (Nat × TagValue)
  gps : List (Nat × TagValue)
  first : List (Nat × TagValue)
  thumbnail : Option (List Nat)
deriving DecidableEq

/-- The empty EXIF structure, `ensure_exif_structure({})`. -/
def emptyExif : ExifDict := ⟨[], [], [], [], none⟩

/-- The Windows XP tag ids (`XP_TAGS` in exif_utils.py), UTF-16LE encoded. -/
def xpTags : List Nat := [40091, 40092, 40093, 40094, 40095]

/-- `remove_tags`: pop each listed tag id from a group if present. -/
def removeTags (g : List (Nat × TagValue)) (ts : List Nat) : List (Nat × TagValue) :=
  g.filter (fun p => !(ts.contains p.1))

/-- Python dict lookup `g.get(t)` on a group (keys are unique, so the first
match is the only one). -/
def getTag : List (Nat × TagValue) → Nat → Option TagValue
  | [], _ => none
  | p :: ps, t => if p.1 = t then some p.2 else getTag ps t

/-- Python dict assignment `g[t] = v`: update in place if the key exists
(keeping its position), else append at the end. -/
def setTag : List (Nat × TagValue) → Nat → TagValue → List (Nat × TagValue)
  | [], t, v => [(t, v)]
  | p :: ps, t, v => if p.1 = t then (t, v) :: ps else p :: setTag ps t v

/-- The fixed identifying tags removed from the 0th IFD by `strip_identifying`:
Make 271, Model 272, Software 305, Artist 315, HostComputer 316,
ImageDescription 270, Copyright 33432, the XP tags, and optionally
Orientation 274. -/
def tags0thRemove (removeOrientation : Bool) : List Nat :=
  [271, 272, 305, 315, 316, 270, 33432] ++ xpTags ++
    (if removeOrientation then [274] else [])

/-- The fixed identifying tags removed from the Exif IFD by
`strip_identifying`: LensMake 42035, LensModel 42036, LensSerialNumber 42037,
BodySerialNumber 42033, CameraOwnerName 42032, MakerNote 37500,
UserComment 37510, ImageUniqueID 42016. -/
def tagsExifRemove : List Nat := [42035, 42036, 42037, 42033, 42032, 37500, 37510, 42016]

/-- `strip_identifying`: clear the GPS IFD, remove the fixed identifying tags
from the 0th and Exif IFDs, handle the three date tags according to the date
policy (DateTime 306, DateTimeOriginal 36867, DateTimeDigitized 36868 are
removed both under anonymize_dates and under not preserve_dates), and clear
the thumbnail IFD and blob. -/
def stripIdentifying (e : ExifDict)
    (preserveDates anonymizeDates removeOrientation : Bool) : ExifDict :=
  let z1 := removeTags e.zeroth (tags0thRemove removeOrientation)
  let x1 := removeTags e.exifIfd tagsExifRemove
  let z2 := if anonymizeDates then removeTags z1 [306]
            else if !preserveDates then removeTags z1 [306] else z1
  let x2 := if anonymizeDates then removeTags x1 [36867, 36868]
            else if !preserveDates then removeTags x1 [36867, 36868] else x1
  { zeroth := z2, exifIfd := x2, gps := [], first := [], thumbnail := none }

/-- `set_camera_make_model`: set Make 271 and Model 272 in the 0th IFD. -/
def setCameraMakeModel (e : ExifDict) (make model : String) : ExifDict :=
  { e with zeroth := setTag (setTag e.zeroth 271 (.strVal make)) 272 (.strVal model) }

/-- `apply_extended_camera_profile`: set the camera identity, the fixed
technical fields FNumber 33437 = 28/10, ExposureTime 33434 = 1/125,
FocalLength 37386 = 50/1, ISOSpeedRatings 34855 = 100, and per-profile
lens and software strings (profiles "canon" and "iphone", generic
fallback otherwise). -/
def applyExtendedCameraProfile (e : ExifDict) (profile make model : String) : ExifDict :=
  let e1 := setCameraMakeModel e make model
  let x1 := setTag e1.exifIfd 33437 (.ratVal 28 10)
  let x2 := setTag x1 33434 (.ratVal 1 125)
  let x3 := setTag x2 37386 (.ratVal 50 1)
  let x4 := setTag x3 34855 (.intVal 100)
  if lowerStr profile == "canon" then
    let x5 := setTag x4 42035 (.strVal "Canon")
    let x6 := setTag x5 42036 (.strVal "EF 50mm f/1.8")
    { e1 with exifIfd := x6, zeroth := setTag e1.zeroth 305 (.strVal "Canon Firmware") }
  else if lowerStr profile == "iphone" then
    let x5 := setTag x4 42035 (.strVal "Apple")
    let x6 := setTag x5 42036 (.strVal "iPhone 14 Pro back camera 24mm f/1.78")
    { e1 with exifIfd := x6, zeroth := setTag e1.zeroth 305 (.strVal "Apple iOS") }
  else
    { e1 with exifIfd := x4, zeroth := setTag e1.zeroth 305 (.strVal "Camera System") }

/-- Python `str.strip()`: drop ASCII whitespace at both ends. -/
def stripStr (s : String) : String :=
  String.mk (((s.data.dropWhile (fun c => [32, 9, 10, 13, 11, 12].contains c.toNat)).reverse.dropWhile
    (fun c => [32, 9, 10, 13, 11, 12].contains c.toNat)).reverse)

/-- Python `s.split("|", 1)`: the part before the first bar and the rest. -/
def splitBarOnce (s : String) : String × String :=
  let before := s.data.takeWhile (fun c => !(c == Char.ofNat 124))
  (String.mk before, String.mk (s.data.drop (before.length + 1)))

/-- `get_default_camera_profile`: resolve a camera profile string into
(profile_key, make, model); None or "canon" resolve to the Canon pair,
"iphone" to the Apple pair, a literal with a bar splits into make/model with
placeholder fallbacks, any other string is treated as a bare brand. -/
def getDefaultCameraProfile (name : Option String) : String × String × String :=
  match name with
  | none => ("canon", "Canon", "Canon EOS 5D Mark IV")
  | some s =>
    if s == "" || lowerStr s == "canon" then ("canon", "Canon", "Canon EOS 5D Mark IV")
    else if lowerStr s == "iphone" then ("iphone", "Apple", "iPhone 14 Pro")
    else if s.data.contains (Char.ofNat 124) then
      let parts := splitBarOnce s
      let make := stripStr parts.1
      let model := stripStr parts.2
      ("custom", if make == "" then "Camera" else make,
        if model == "" then "Model" else model)
    else ("custom", s, s ++ " Camera")

/-! ## Readable projection byte decoding (`_decode_bytes_value`) -/

/-- The try-block around `value.decode("utf-16le", errors="ignore")`: with
errors="ignore" the Python decoder never raises, so this always succeeds. -/
def tryUtf16leIgnore (v : List Nat) : Option (List Char) := some (utf16leDecodeIgnore v)

/-- The try-block around `value.decode("utf-8", errors="ignore")`: with
errors="ignore" the Python decoder never raises, so this always succeeds. -/
def tryUtf8Ignore (v : List Nat) : Option (List Char) := some (utf8DecodeIgnore v)

/-- The try-block around `value.decode("latin-1", errors="ignore")`: latin-1
maps every byte to a character, so this always succeeds. -/
def tryLatin1Ignore (v : List Nat) : Option (List Char) := some (latin1DecodeIgnore v)

/-- The final fallback of `_decode_bytes_value`:
`value[:64].hex() + ("..." if len(value) > 64 else "")`. -/
def hexPreview (v : List Nat) : String :=
  bytesHex (v.take 64) ++ (if 64 < v.length then "..." else "")

/-- The non-XP branch of `_decode_bytes_value`: try utf-8, then latin-1, and
only if both raise fall back to the bounded hex preview. -/
def decodeBytesFallback (v : List Nat) : String :=
  match tryUtf8Ignore v with
  | some cs => String.mk cs
  | none =>
    match tryLatin1Ignore v with
    | some cs => String.mk cs
    | none => hexPreview v

/-- `_decode_bytes_value(tag, value)`: XP tags decode as UTF-16LE with
trailing NULs stripped (falling through on exception), all other byte values
go through the utf-8 / latin-1 / hex-preview chain. -/
def decodeBytesValue (tag : Nat) (v : List Nat) : String :=
  if xpTags.contains tag then
    match tryUtf16leIgnore v with
    | some cs => String.mk (rstripNul cs)
    | none => decodeBytesFallback v
  else decodeBytesFallback v

/-! ## AI heuristic detector (src/ai_detect.py) -/

/-- `AI_KEYWORDS`: the fixed, ordered keyword list. -/
def aiKeywords : List String :=
  ["stable diffusion", "sdxl", "comfyui", "invokeai", "automatic1111",
   "novelai", "midjourney", "dall-e", "dalle", "firefly", "adobe firefly",
   "generative fill", "leonardo", "ideogram", "runway", "mage.space",
   "controlnet", "ai", "ia"]

/-- `CANDIDATE_TAGS`: the tag names examined in the readable EXIF dict. -/
def candidateTags : List String :=
  ["Software", "ImageDescription", "Artist", "Make", "Model",
   "UserComment", "MakerNote", "LensModel", "HostComputer"]

/-- `_find_keywords`: all keywords occurring (case-insensitively) in the
text, in keyword-list order. -/
def findKeywords (text : String) (keywords : List String) : List String :=
  let textL := lowerStr text
  keywords.filter (fun kw => isSubList kw.data textL.data)

/-- Lexicographic (code-point) comparison on strings, Python `<` on str. -/
def charListLt : List Char → List Char → Bool
  | [], [] => false
  | [], _ :: _ => true
  | _ :: _, [] => false
  | c :: cs, d :: ds =>
    if c.toNat < d.toNat then true
    else if d.toNat < c.toNat then false
    else charListLt cs ds

/-- Insert a string into an ascending list, keeping it sorted. -/
def insertSorted (s : String) : List String → List String
  | [] => [s]
  | t :: ts => if charListLt t.data s.data then t :: insertSorted s ts else s :: t :: ts

/-- Python `sorted(set(hits))`: deduplicate, then sort ascending. -/
def sortedSet (l : List String) : List String :=
  l.eraseDups.foldl (fun acc s => insertSorted s acc) []

/-- A quote character, written via its code point. -/
def quoteChar : Char := Char.ofNat 39

/-- The reason string of the source f-string: the group name, a dot, the
field name, the text " contains: ", and the deduplicated sorted hits joined
by ", ". -/
def reasonStr (ifdName tagName : String) (hits : List String) : String :=
  ifdName ++ "." ++ tagName ++ " contains: " ++ String.intercalate ", " (sortedSet hits)

/-- A readable EXIF document: the four groups of `exif_to_readable_dict`,
each mapping a tag name to its rendered string value. -/
structure ReadableExif where
  zeroth : List (String × String)
  exifIfd : List (String × String)
  gps : List (String × String)
  first : List (String × String)
deriving DecidableEq

/-- The reasons contributed by one IFD of the readable dict: for each field
in the candidate allow-list whose value matches at least one keyword, one
reason string. -/
def groupReasons (ifdName : String) (g : List (String × String)) : List String :=
  g.filterMap (fun p =>
    if candidateTags.contains p.1 then
      let hits := findKeywords p.2 aiKeywords
      if hits.isEmpty then none else some (reasonStr ifdName p.1 hits)
    else none)

/-- `detect_ai_from_exif_readable`: examine the 0th, Exif and 1st IFDs (the
GPS IFD is skipped), collect one reason per matching candidate field, and
report detected iff any reason exists. -/
def detectAiFromExifReadable (d : ReadableExif) : Bool × List String :=
  let reasons := groupReasons "0th" d.zeroth ++ groupReasons "Exif" d.exifIfd ++
    groupReasons "1st" d.first
  (0 < reasons.length, reasons)

/-! ## Streaming deep byte scan (`deep_scan_bytes`) -/

/-- One read event of the streamed file: a successfully read chunk, or an
I/O error raised by the read (caught by the surrounding try/except). -/
inductive ReadEv where
  | chunk (b : List Nat)
  | ioError
deriving DecidableEq

/-- The match message of the byte scan: the keyword wrapped in single
quotes after the text "bytes: found ". -/
def msgFor (kw : String) : String :=
  "bytes: found " ++ String.singleton quoteChar ++ kw ++ String.singleton quoteChar

/-- The keyword preparation of `deep_scan_bytes`: lower-case every keyword and
deduplicate while preserving order (the `seen` set always holds exactly the
contents of `keys`). -/
def dedupLowerKeys (ks : List String) : List String :=
  ks.foldl (fun acc k =>
    let kl := lowerStr k
    if acc.contains kl then acc else acc ++ [kl]) []

/-- The full scanned keyword list: `AI_KEYWORDS` plus the truthy caller
extras, lowered and deduplicated. -/
def scanKeys (extra : List String) : List String :=
  dedupLowerKeys (aiKeywords ++ extra.filter (fun k => !(k == "")))

/-- The inner `for kw in keys` loop over one lowered window: append the
message of each newly found keyword; the Bool is true when `max_matches` was
reached and the function returns early. -/
def scanWindow (keys : List String) (low : List Nat) (ms : List String)
    (maxM : Nat) : List String × Bool :=
  match keys with
  | [] => (ms, false)
  | kw :: rest =>
    if isSubList (utf8Encode kw) low then
      let msg := msgFor kw
      if ms.contains msg then scanWindow rest low ms maxM
      else
        let m2 := ms ++ [msg]
        if maxM ≤ m2.length then (m2, true)
        else scanWindow rest low m2 maxM
    else scanWindow rest low ms maxM

/-- The `while True` read loop of `deep_scan_bytes`: an empty read breaks, an
I/O error is caught and the matches collected so far are returned, otherwise
the window `leftover + chunk` is lowered and scanned and the last 64 bytes of
the window are kept as overlap. -/
def scanLoop (keys : List String) (evs : List ReadEv) (leftover : List Nat)
    (ms : List String) (maxM : Nat) : List String :=
  match evs with
  | [] => ms
  | .ioError :: _ => ms
  | .chunk c :: rest =>
    if c.isEmpty then ms
    else
      let window := leftover ++ c
      let low := lowerBytes window
      let r := scanWindow keys low ms maxM
      if r.2 then r.1
      else scanLoop keys rest (takeLast 64 window) r.1 maxM

/-- `chunk_size = 1024 * 1024`. -/
def chunkSize : Nat := 1048576

/-- `deep_scan_bytes` over an explicit stream of read events. -/
def deepScanEvents (evs : List ReadEv) (extra : List String) (maxM : Nat) : List String :=
  scanLoop (scanKeys extra) evs [] [] maxM

/-- `deep_scan_bytes` on a file whose bytes are read without error: the
stream is the file split into 1 MiB chunks. -/
def deepScanBytes (file : List Nat) (extra : List String) (maxM : Nat) : List String :=
  deepScanEvents ((chunksOf chunkSize file).map ReadEv.chunk) extra maxM

/-! ## Metadata codec

The codec itself is `piexif.load` / `piexif.dump` / `piexif.insert`, an
external library whose sources are not part of this repository; following
§4.2 of the design it is modelled from the spec as an injective serialization
of the document into a metadata block spliced into a container that keeps all
non-metadata content. -/

/-- `SUPPORTED_FORMATS` from exif_utils.py. -/
def supportedFormats : List String := ["JPEG", "TIFF", "WEBP"]

/-- Modelled from the spec: a supported container file seen by the codec —
its format name, its metadata block (if any) and all non-metadata content. -/
structure FileBlob where
  format : String
  meta : Option (List Nat)
  other : List Nat
deriving DecidableEq

/-- Serialize an integer as sign and magnitude tokens. -/
def encInt (i : Int) : List Nat := [if i < 0 then 1 else 0, i.natAbs]

/-- Serialize one rational pair. -/
def encRatPair (p : Int × Int) : List Nat := encInt p.1 ++ encInt p.2

/-- Serialize one tag value, tagged by constructor. -/
def encVal : TagValue → List Nat
  | .intVal i => 0 :: encInt i
  | .ratVal n d => 1 :: (encInt n ++ encInt d)
  | .bytesVal b => 2 :: b.length :: b
  | .strVal s => 3 :: s.data.length :: s.data.map Char.toNat
  | .ratListVal l => 4 :: l.length :: (l.map encRatPair).flatten

/-- Serialize one IFD group, length-prefixed. -/
def encGroup (g : List (Nat × TagValue)) : List Nat :=
  g.length :: (g.map (fun p => p.1 :: encVal p.2)).flatten

/-- Serialize the thumbnail blob. -/
def encThumb : Option (List Nat) → List Nat
  | none => [0]
  | some b => 1 :: b.length :: b

/-- Modelled from the spec: `encode(document) -> bytes` — serialize a
MetadataDocument into a metadata block (`piexif.dump`). -/
def encodeExif (e : ExifDict) : List Nat :=
  encGroup e.zeroth ++ encGroup e.exifIfd ++ encGroup e.gps ++ encGroup e.first ++
    encThumb e.thumbnail

/-- Parse an integer (sign and magnitude). -/
def parseInt : List Nat → Option (Int × List Nat)
  | s :: m :: r =>
    if s = 0 then some ((m : Int), r)
    else if s = 1 then some (-(m : Int), r)
    else none
  | _ => none

/-- Parse a length-`n` raw byte run. -/
def parseChunk (n : Nat) (l : List Nat) : Option (List Nat × List Nat) :=
  if n ≤ l.length then some (l.take n, l.drop n) else none

/-- Parse `n` rational pairs. -/
def parseRatPairs : Nat → List Nat → Option (List (Int × Int) × List Nat)
  | 0, l => some ([], l)
  | n + 1, l =>
    match parseInt l with
    | some (a, l1) =>
      match parseInt l1 with
      | some (b, l2) =>
        match parseRatPairs n l2 with
        | some (ps, l3) => some ((a, b) :: ps, l3)
        | none => none
      | none => none
    | none => none

/-- Parse one tag value, dispatching on the constructor tag. -/
def parseVal (l : List Nat) : Option (TagValue × List Nat) :=
  match l with
  | [] => none
  | c :: r =>
    if c = 0 then
      match parseInt r with
      | some (i, r1) => some (.intVal i, r1)
      | none => none
    else if c = 1 then
      match parseInt r with
      | some (n, r1) =>
        match parseInt r1 with
        | some (d, r2) => some (.ratVal n d, r2)
        | none => none
      | none => none
    else if c = 2 then
      match r with
      | n :: r1 =>
        match parseChunk n r1 with
        | some (b, r2) => some (.bytesVal b, r2)
        | none => none
      | [] => none
    else if c = 3 then
      match r with
      | n :: r1 =>
        match parseChunk n r1 with
        | some (b, r2) => some (.strVal (String.mk (b.map Char.ofNat)), r2)
        | none => none
      | [] => none
    else if c = 4 then
      match r with
      | n :: r1 =>
        match parseRatPairs n r1 with
        | some (ps, r2) => some (.ratListVal ps, r2)
        | none => none
      | [] => none
    else none

/-- Parse `n` tag/value pairs. -/
def parsePairs : Nat → List Nat → Option (List (Nat × TagValue) × List Nat)
  | 0, l => some ([], l)
  | n + 1, l =>
    match l with
    | t :: l1 =>
      match parseVal l1 with
      | some (v, l2) =>
        match parsePairs n l2 with
        | some (ps, l3) => some ((t, v) :: ps, l3)
        | none => none
      | none => none
    | [] => none

/-- Parse one length-prefixed IFD group. -/
def parseGroup (l : List Nat) : Option (List (Nat × TagValue) × List Nat) :=
  match l with
  | n :: r => parsePairs n r
  | [] => none

/-- Parse the thumbnail blob. -/
def parseThumb (l : List Nat) : Option (Option (List Nat) × List Nat) :=
  match l with
  | [] => none
  | c :: r =>
    if c = 0 then some (none, r)
    else if c = 1 then
      match r with
      | n :: r1 =>
        match parseChunk n r1 with
        | some (b, r2) => some (some b, r2)
        | none => none
      | [] => none
    else none

/-- Parse a whole metadata block into a document. -/
def parseExif (l : List Nat) : Option ExifDict :=
  match parseGroup l with
  | some (z, l1) =>
    match parseGroup l1 with
    | some (x, l2) =>
      match parseGroup l2 with
      | some (g, l3) =>
        match parseGroup l3 with
        | some (f, l4) =>
          match parseThumb l4 with
          | some (th, l5) => if l5.isEmpty then some ⟨z, x, g, f, th⟩ else none
          | none => none
        | none => none
      | none => none
    | none => none
  | none => none

/-- Modelled from the spec: `decode(fileBytes)` — Unsupported for a container
outside the supported set, otherwise the parsed document, falling back to the
empty document when the metadata block is absent or malformed
(`piexif.load` plus the `load_exif_dict` normalisation). -/
def decodeFile (f : FileBlob) : Except Unit ExifDict :=
  if supportedFormats.contains f.format then
    .ok (match f.meta with
      | none => emptyExif
      | some b => (parseExif b).getD emptyExif)
  else .error ()

/-- Modelled from the spec: `insert(fileBytes, metadataBlock)` — splice the
encoded block into a copy of the container, preserving all non-metadata
content; InsertError when the container cannot be parsed (`piexif.insert`). -/
def insertMeta (f : FileBlob) (block : List Nat) : Except Unit FileBlob :=
  if supportedFormats.contains f.format then .ok { f with meta := some block }
  else .error ()

/-! ## Batch orchestrator (src/actions.py, src/cli.py)

File-system state is modelled explicitly: a map from paths to container
files plus the set of created directories. -/

/-- A filesystem path: absolute flag plus components. -/
structure Pth where
  abs : Bool
  comps : List String
deriving DecidableEq

/-- Python `Path.name`: the final component. -/
def pthName (p : Pth) : String := p.comps.getLastD ""

/-- Python `Path.parent`. -/
def pthParent (p : Pth) : Pth := ⟨p.abs, p.comps.dropLast⟩

/-- The filesystem: files with contents, and the directories created. -/
structure FS where
  files : List (Pth × FileBlob)
  dirs : List Pth
deriving DecidableEq

/-- Read the file at a path, if present. -/
def lookupFile (fs : FS) (p : Pth) : Option FileBlob :=
  (fs.files.find? (fun q => q.1 == p)).map (fun q => q.2)

/-- Write (create or overwrite) the file at a path. -/
def setFileFS (fs : FS) (p : Pth) (c : FileBlob) : FS :=
  { fs with files :=
      if fs.files.any (fun q => q.1 == p)
      then fs.files.map (fun q => if q.1 == p then (p, c) else q)
      else fs.files ++ [(p, c)] }

/-- `mkdir(parents=True, exist_ok=True)`: record the directory; idempotent,
never touches file contents. -/
def mkdirP (fs : FS) (d : Pth) : FS :=
  { fs with dirs := if fs.dirs.contains d then fs.dirs else fs.dirs ++ [d] }

/-- Does a file exist at this path (`dest.exists()`). -/
def fileExists (fs : FS) (p : Pth) : Bool := fs.files.any (fun q => q.1 == p)

/-- `ModifyOptions` from actions.py. -/
structure ModifyOptions where
  strip_identifying : Bool
  replace_camera : Option String
  replace_extended : Bool
  preserve_dates : Bool
  anonymize_dates : Bool
  remove_orientation : Bool
  in_place : Bool
  backup_ext : Option String
  out_dir : Option Pth
  dry_run : Bool
  base_input_dir : Option Pth
deriving DecidableEq

/-- Python truthiness of an optional string: None and "" are falsy. -/
def truthyOptStr : Option String → Bool
  | none => false
  | some s => !(s == "")

/-- Python `src.relative_to(base)`: defined when base is a path prefix. -/
def relativeTo (src base : Pth) : Option (List String) :=
  if src.abs == base.abs && base.comps.isPrefixOf src.comps then
    some (src.comps.drop base.comps.length)
  else none

/-- `make_output_path`: in-place (or no out_dir) keeps the source path; with
an out_dir the relative path from base_input_dir is mirrored (falling back to
the bare file name), creating the needed directories. -/
def makeOutputPath (fs : FS) (src : Pth) (o : ModifyOptions) : FS × Pth :=
  match o.out_dir with
  | none => (fs, src)
  | some od =>
    if o.in_place then (fs, src)
    else
      let fs1 := mkdirP fs od
      let rel : List String :=
        match o.base_input_dir with
        | some b =>
          if src.abs then
            match relativeTo src b with
            | some r => r
            | none => [pthName src]
          else [pthName src]
        | none => [pthName src]
      let dest : Pth := ⟨od.abs, od.comps ++ rel⟩
      (mkdirP fs1 (pthParent dest), dest)

/-- `load_exif_dict`: None when the format is unsupported (piexif raises),
otherwise the parsed metadata with the required keys ensured; an absent or
malformed block yields the empty structure. -/
def loadExifDict (f : FileBlob) : Option ExifDict :=
  if supportedFormats.contains f.format then
    some (match f.meta with
      | none => emptyExif
      | some b => (parseExif b).getD emptyExif)
  else none

/-- The camera-replacement step of `apply_strip_and_replace` (lines 117-124):
resolve the profile and apply the extended or the basic replacement; skipped
when replace_camera is falsy. -/
def replaceCameraStep (o : ModifyOptions) (e : ExifDict) : ExifDict :=
  match o.replace_camera with
  | none => e
  | some s =>
    if s == "" then e
    else
      let t := getDefaultCameraProfile (some s)
      if o.replace_extended then applyExtendedCameraProfile e t.1 t.2.1 t.2.2
      else setCameraMakeModel e t.2.1 t.2.2

/-- The pure transformation pipeline of `apply_strip_and_replace`
(lines 108-124): strip identifying metadata when strip was requested or any
camera replacement was requested, then apply the camera replacement. -/
def transformExif (o : ModifyOptions) (e : ExifDict) : ExifDict :=
  let e1 :=
    if o.strip_identifying || truthyOptStr o.replace_camera || o.replace_extended
    then stripIdentifying e o.preserve_dates o.anonymize_dates o.remove_orientation
    else e
  replaceCameraStep o e1

/-- `dest.with_name(dest.name + backup_ext)`. -/
def backupPath (dest : Pth) (ext : String) : Pth :=
  ⟨dest.abs, dest.comps.dropLast ++ [pthName dest ++ ext]⟩

/-- `write_bytes`: in-place mode makes a backup copy first when a backup
suffix is configured (even before the dry-run check, as in the source), then
writes unless dry-run; otherwise creates the destination directory and
writes unless dry-run. -/
def writeBytesFS (fs : FS) (dest : Pth) (data : FileBlob) (o : ModifyOptions) : FS :=
  if o.in_place then
    let fs1 :=
      if truthyOptStr o.backup_ext then
        match o.backup_ext, lookupFile fs dest with
        | some ext, some orig => setFileFS fs (backupPath dest ext) orig
        | _, _ => fs
      else fs
    if !o.dry_run then setFileFS fs1 dest data else fs1
  else
    if !o.dry_run then setFileFS (mkdirP fs (pthParent dest)) dest data else fs

/-- `apply_strip_and_replace`: check the format, load the EXIF, transform it,
and either report the dry-run destination or write the result (file-based
insert for a distinct out_dir destination, bytes-based insert plus
`write_bytes` otherwise).  Returns the new filesystem and
`(success, error_msg, dest_path)`. -/
def applyStripAndReplace (fs : FS) (src : Pth) (o : ModifyOptions) :
    FS × (Bool × Option String × Option Pth) :=
  match lookupFile fs src with
  | none => (fs, (false, some "Format not supported for EXIF write", none))
  | some f =>
    if !(supportedFormats.contains f.format) then
      (fs, (false, some "Format not supported for EXIF write", none))
    else
      let e0 := match loadExifDict f with
        | some d => d
        | none => emptyExif
      let e := transformExif o e0
      if o.dry_run then
        let r := makeOutputPath fs src o
        (r.1, (true, none, some r.2))
      else
        let r := makeOutputPath fs src o
        let dest := r.2
        if (match o.out_dir with | some _ => true | none => false) && !(dest == src) then
          let fs2 := mkdirP r.1 (pthParent dest)
          (setFileFS fs2 dest { f with meta := some (encodeExif e) }, (true, none, some dest))
        else
          match insertMeta f (encodeExif e) with
          | .ok outBlob => (writeBytesFS r.1 dest outBlob o, (true, none, some dest))
          | .error _ => (r.1, (false, some "Failed to dump/insert EXIF", none))

/-- The command-line arguments relevant to `build_modify_options`. -/
structure CliArgs where
  strip_identifying : Bool
  replace_camera : Option String
  replace_extended : Bool
  preserve_dates : Bool
  anonymize_dates : Bool
  remove_orientation : Bool
  in_place : Bool
  backup_ext : Option String
  out_dir : Option Pth
  dry_run : Bool
deriving DecidableEq

/-- `build_modify_options` (cli.py lines 117-130): strip_identifying is
requested whenever stripping or any camera replacement was requested. -/
def buildModifyOptions (a : CliArgs) (base : Option Pth) : ModifyOptions :=
  { strip_identifying := a.strip_identifying || truthyOptStr a.replace_camera || a.replace_extended
    replace_camera := a.replace_camera
    replace_extended := a.replace_extended
    preserve_dates := a.preserve_dates && !a.anonymize_dates
    anonymize_dates := a.anonymize_dates
    remove_orientation := a.remove_orientation
    in_place := a.in_place
    backup_ext := if a.in_place then a.backup_ext else none
    out_dir := a.out_dir
    dry_run := a.dry_run
    base_input_dir := base }

/-! ## Engine lemmas -/

theorem filter_idem (g : List α) (P : α → Bool) :
    (g.filter P).filter P = g.filter P := by
  rw [List.filter_filter]
  apply List.filter_congr
  intro x _
  cases P x <;> simp

theorem filter_comm4 (g : List α) (P Q : α → Bool) :
    (((g.filter P).filter Q).filter P).filter Q = (g.filter P).filter Q := by
  simp only [List.filter_filter]
  apply List.filter_congr
  intro x _
  cases hP : P x <;> cases hQ : Q x <;> simp [hP, hQ]

theorem removeTags_idem (g : List (Nat × TagValue)) (ts : List Nat) :
    removeTags (removeTags g ts) ts = removeTags g ts :=
  filter_idem g _

/-- C3: for every input document and every combination of the
preserve/anonymize/orientation flags, after `strip_identifying` the GPS
group is empty, the thumbnail-primary (1st) group is empty, and the
thumbnail blob is empty — the thumbnail group and blob are cleared
together. -/
theorem stripIdentifying_clears_location_and_thumbnail
    (e : ExifDict) (p a r : Bool) :
    (stripIdentifying e p a r).gps = [] ∧
    (stripIdentifying e p a r).first = [] ∧
    (stripIdentifying e p a r).thumbnail = none :=
  ⟨rfl, rfl, rfl⟩

/-- C4: `strip_identifying` is idempotent — for every document and every
fixed choice of the preserve_dates, anonymize_dates and remove_orientation
flags, applying it twice yields the same document as applying it once. -/
theorem stripIdentifying_idempotent (e : ExifDict) (p a r : Bool) :
    stripIdentifying (stripIdentifying e p a r) p a r =
      stripIdentifying e p a r := by
  unfold stripIdentifying removeTags
  cases a <;> cases p <;>
    simp only [Bool.not_true, Bool.not_false, if_true, if_false, ExifDict.mk.injEq] <;>
    refine ⟨?_, ?_, trivial, trivial, trivial⟩ <;>
    first
      | exact filter_idem _ _
      | exact filter_comm4 _ _ _

theorem getTag_setTag_self (g : List (Nat × TagValue)) (t : Nat) (v : TagValue) :
    getTag (setTag g t v) t = some v := by
  induction g with
  | nil => simp [getTag, setTag]
  | cons q qs ih =>
    by_cases hq : q.1 = t
    · simp [getTag, setTag, hq]
    · simp [getTag, setTag, hq, ih]

theorem getTag_setTag_ne (g : List (Nat × TagValue)) (t u : Nat) (v : TagValue)
    (hne : u ≠ t) : getTag (setTag g t v) u = getTag g u := by
  induction g with
  | nil => simp [getTag, setTag, Ne.symm hne]
  | cons q qs ih =>
    by_cases hq : q.1 = t
    · simp [getTag, setTag, hq, Ne.symm hne]
    · by_cases hu : q.1 = u
      · simp [getTag, setTag, hq, hu, hne, Ne.symm hne]
      · simp [getTag, setTag, hq, hu, ih]

/-- C8: for every document and every profile key, `apply_extended_camera_profile`
sets the primary-group make and model (via `set_camera_make_model`), the
capture-group technical fields FNumber 28/10, ExposureTime 1/125,
FocalLength 50/1 and sensitivity 100, and the lens make/model and software
string chosen by the two-entry profile table with a generic fallback for
unknown keys (which never fails); with profile "iphone" the lens model is the
fixed Apple lens string and the software is "Apple iOS"; the location group
is never touched. -/
theorem applyExtendedProfile_fields (e : ExifDict) (profile make model : String) :
    getTag (applyExtendedCameraProfile e profile make model).exifIfd 33437 =
        some (.ratVal 28 10) ∧
    getTag (applyExtendedCameraProfile e profile make model).exifIfd 33434 =
        some (.ratVal 1 125) ∧
    getTag (applyExtendedCameraProfile e profile make model).exifIfd 37386 =
        some (.ratVal 50 1) ∧
    getTag (applyExtendedCameraProfile e profile make model).exifIfd 34855 =
        some (.intVal 100) ∧
    getTag (applyExtendedCameraProfile e profile make model).zeroth 271 =
        some (.strVal make) ∧
    getTag (applyExtendedCameraProfile e profile make model).zeroth 272 =
        some (.strVal model) ∧
    (applyExtendedCameraProfile e profile make model).gps = e.gps ∧
    (lowerStr profile = "iphone" →
      getTag (applyExtendedCameraProfile e profile make model).exifIfd 42035 =
          some (.strVal "Apple") ∧
      getTag (applyExtendedCameraProfile e profile make model).exifIfd 42036 =
          some (.strVal "iPhone 14 Pro back camera 24mm f/1.78") ∧
      getTag (applyExtendedCameraProfile e profile make model).zeroth 305 =
          some (.strVal "Apple iOS")) ∧
    (lowerStr profile = "canon" →
      getTag (applyExtendedCameraProfile e profile make model).exifIfd 42035 =
          some (.strVal "Canon") ∧
      getTag (applyExtendedCameraProfile e profile make model).exifIfd 42036 =
          some (.strVal "EF 50mm f/1.8") ∧
      getTag (applyExtendedCameraProfile e profile make model).zeroth 305 =
          some (.strVal "Canon Firmware")) ∧
    (lowerStr profile ≠ "canon" → lowerStr profile ≠ "iphone" →
      getTag (applyExtendedCameraProfile e profile make model).zeroth 305 =
          some (.strVal "Camera System")) := by
  by_cases hc : (lowerStr profile == "canon") = true
  · have hceq : lowerStr profile = "canon" := by simpa using hc
    simp only [applyExtendedCameraProfile, setCameraMakeModel, hc, if_true]
    refine ⟨?_, ?_, ?_, ?_, ?_, ?_, trivial, ?_, ?_, ?_⟩
    · rw [getTag_setTag_ne _ _ _ _ (by decide), getTag_setTag_ne _ _ _ _ (by decide),
        getTag_setTag_ne _ _ _ _ (by decide), getTag_setTag_ne _ _ _ _ (by decide),
        getTag_setTag_ne _ _ _ _ (by decide), getTag_setTag_self]
    · rw [getTag_setTag_ne _ _ _ _ (by decide), getTag_setTag_ne _ _ _ _ (by decide),
        getTag_setTag_ne _ _ _ _ (by decide), getTag_setTag_ne _ _ _ _ (by decide),
        getTag_setTag_self]
    · rw [getTag_setTag_ne _ _ _ _ (by decide), getTag_setTag_ne _ _ _ _ (by decide),
        getTag_setTag_ne _ _ _ _ (by decide), getTag_setTag_self]
    · rw [getTag_setTag_ne _ _ _ _ (by decide), getTag_setTag_ne _ _ _ _ (by decide),
        getTag_setTag_self]
    · rw [getTag_setTag_ne _ _ _ _ (by decide), getTag_setTag_ne _ _ _ _ (by decide),
        getTag_setTag_self]
    · rw [getTag_setTag_ne _ _ _ _ (by decide), getTag_setTag_self]
    · intro hieq
      rw [hceq] at hieq
      exact absurd hieq (by decide)
    · intro _
      refine ⟨?_, ?_, ?_⟩
      · rw [getTag_setTag_ne _ _ _ _ (by decide), getTag_setTag_self]
      · rw [getTag_setTag_self]
      · rw [getTag_setTag_self]
    · intro hne _
      exact absurd hceq hne
  · have hc2 : (lowerStr profile == "canon") = false := by simpa using hc
    by_cases hi : (lowerStr profile == "iphone") = true
    · have hieq : lowerStr profile = "iphone" := by simpa using hi
      simp only [applyExtendedCameraProfile, setCameraMakeModel, hc2, hi,
        Bool.false_eq_true, if_false, if_true]
      refine ⟨?_, ?_, ?_, ?_, ?_, ?_, trivial, ?_, ?_, ?_⟩
      · rw [getTag_setTag_ne _ _ _ _ (by decide), getTag_setTag_ne _ _ _ _ (by decide),
          getTag_setTag_ne _ _ _ _ (by decide), getTag_setTag_ne _ _ _ _ (by decide),
          getTag_setTag_ne _ _ _ _ (by decide), getTag_setTag_self]
      · rw [getTag_setTag_ne _ _ _ _ (by decide), getTag_setTag_ne _ _ _ _ (by decide),
          getTag_setTag_ne _ _ _ _ (by decide), getTag_setTag_ne _ _ _ _ (by decide),
          getTag_setTag_self]
      · rw [getTag_setTag_ne _ _ _ _ (by decide), getTag_setTag_ne _ _ _ _ (by decide),
          getTag_setTag_ne _ _ _ _ (by decide), getTag_setTag_self]
      · rw [getTag_setTag_ne _ _ _ _ (by decide), getTag_setTag_ne _ _ _ _ (by decide),
          getTag_setTag_self]
      · rw [getTag_setTag_ne _ _ _ _ (by decide), getTag_setTag_ne _ _ _ _ (by decide),
          getTag_setTag_self]
      · rw [getTag_setTag_ne _ _ _ _ (by decide), getTag_setTag_self]
      · intro _
        refine ⟨?_, ?_, ?_⟩
        · rw [getTag_setTag_ne _ _ _ _ (by decide), getTag_setTag_self]
        · rw [getTag_setTag_self]
        · rw [getTag_setTag_self]
      · intro hceq
        rw [hieq] at hceq
        exact absurd hceq (by decide)
      · intro _ hne
        exact absurd hieq hne
    · have hi2 : (lowerStr profile == "iphone") = false := by simpa using hi
      simp only [applyExtendedCameraProfile, setCameraMakeModel, hc2, hi2,
        Bool.false_eq_true, if_false]
      refine ⟨?_, ?_, ?_, ?_, ?_, ?_, trivial, ?_, ?_, ?_⟩
      · rw [getTag_setTag_ne _ _ _ _ (by decide), getTag_setTag_ne _ _ _ _ (by decide),
          getTag_setTag_ne _ _ _ _ (by decide), getTag_setTag_self]
      · rw [getTag_setTag_ne _ _ _ _ (by decide), getTag_setTag_ne _ _ _ _ (by decide),
          getTag_setTag_self]
      · rw [getTag_setTag_ne _ _ _ _ (by decide), getTag_setTag_self]
      · rw [getTag_setTag_self]
      · rw [getTag_setTag_ne _ _ _ _ (by decide), getTag_setTag_ne _ _ _ _ (by decide),
          getTag_setTag_self]
      · rw [getTag_setTag_ne _ _ _ _ (by decide), getTag_setTag_self]
      · intro hieq
        exact absurd hieq (by simpa using hi)
      · intro hceq
        exact absurd hceq (by simpa using hc)
      · intro _ _
        rw [getTag_setTag_self]

/-- Closed witness for the extended-profile theorem at profile "iphone" on
the empty document. -/
theorem applyExtendedProfile_fields_witness :
    getTag (applyExtendedCameraProfile emptyExif "iphone" "Apple" "iPhone 14 Pro").exifIfd 42036 =
        some (.strVal "iPhone 14 Pro back camera 24mm f/1.78") ∧
    getTag (applyExtendedCameraProfile emptyExif "iphone" "Apple" "iPhone 14 Pro").zeroth 305 =
        some (.strVal "Apple iOS") ∧
    (applyExtendedCameraProfile emptyExif "iphone" "Apple" "iPhone 14 Pro").gps = [] := by
  have h := applyExtendedProfile_fields emptyExif "iphone" "Apple" "iPhone 14 Pro"
  have hip := h.2.2.2.2.2.2.2.1 (by decide)
  exact ⟨hip.2.1, hip.2.2, h.2.2.2.2.2.2.1⟩

theorem bytesHex_length (l : List Nat) : (bytesHex l).length = 2 * l.length := by
  induction l with
  | nil => rfl
  | cons b bs ih =>
    show ((List.map _ (b :: bs)).flatten).length = _
    rw [List.map_cons, List.flatten_cons, List.length_append]
    have : ((bs.map (fun b => [hexDigit (b / 16), hexDigit (b % 16)])).flatten).length =
        2 * bs.length := ih
    simp [this]
    omega

/-- C5: in the readable projection, XP-tag byte values decode as UTF-16LE
with trailing NULs trimmed; every other byte value goes through the UTF-8
attempt, then the latin-1 fallback, and only when both decode attempts fail
is the value rendered as a hex preview of at most 64 bytes (at most 131
characters) with the "..." truncation marker. -/
theorem decodeBytesValue_policy (tag : Nat) (v : List Nat) :
    (xpTags.contains tag = true →
      decodeBytesValue tag v = String.mk (rstripNul (utf16leDecodeIgnore v))) ∧
    (xpTags.contains tag = false →
      (∀ cs, tryUtf8Ignore v = some cs → decodeBytesValue tag v = String.mk cs) ∧
      (tryUtf8Ignore v = none →
        (∀ cs, tryLatin1Ignore v = some cs → decodeBytesValue tag v = String.mk cs) ∧
        (tryLatin1Ignore v = none → decodeBytesValue tag v = hexPreview v))) ∧
    (hexPreview v).length ≤ 131 := by
  refine ⟨?_, ?_, ?_⟩
  · intro h
    unfold decodeBytesValue
    rw [if_pos h]
    rfl
  · intro h
    have h' : ¬ (xpTags.contains tag = true) := fun hx => Bool.false_ne_true (h ▸ hx)
    constructor
    · intro cs hcs
      simp only [tryUtf8Ignore, Option.some.injEq] at hcs
      subst hcs
      unfold decodeBytesValue
      rw [if_neg h']
      rfl
    · intro hnone
      simp [tryUtf8Ignore] at hnone
  · show (bytesHex (v.take 64) ++ _).length ≤ 131
    rw [String.length_append, bytesHex_length]
    have h1 : (v.take 64).length ≤ 64 := by
      simp [List.length_take]
    have h2 : (if 64 < v.length then "..." else "").length ≤ 3 := by
      by_cases h : 64 < v.length
      · rw [if_pos h]
        decide
      · rw [if_neg h]
        decide
    omega

/-- Closed witness for the byte-decoding policy: an XP tag decoded as
UTF-16LE with the trailing NUL trimmed, and an ordinary tag decoded as
UTF-8. -/
theorem decodeBytesValue_policy_witness :
    decodeBytesValue 40091 [65, 0, 66, 0, 0, 0] = "AB" ∧
    decodeBytesValue 271 [67, 97] = "Ca" := by
  constructor
  · have h := (decodeBytesValue_policy 40091 [65, 0, 66, 0, 0, 0]).1 (by decide)
    rw [h]
    have e1 : utf16leDecodeIgnore [65, 0, 66, 0, 0, 0] =
        [Char.ofNat 65, Char.ofNat 66, Char.ofNat 0] := by
      simp [utf16leDecodeIgnore, utf16Step]
    rw [e1]
    decide
  · have h := ((decodeBytesValue_policy 271 [67, 97]).2.1 (by decide)).1
      (utf8DecodeIgnore [67, 97]) rfl
    rw [h]
    have e2 : utf8DecodeIgnore [67, 97] = [Char.ofNat 67, Char.ofNat 97] := by
      simp [utf8DecodeIgnore, utf8Step]
    rw [e2]

/-! ## Detector lemmas -/

/-- A readable group has a candidate field whose value matches some AI
keyword case-insensitively. -/
def groupHasAiMatch (g : List (String × String)) : Prop :=
  ∃ p ∈ g, candidateTags.contains p.1 = true ∧
    ∃ kw ∈ aiKeywords, isSubList kw.data (lowerStr p.2).data = true

theorem findKeywords_ne_nil_iff (text : String) :
    ¬ (findKeywords text aiKeywords = []) ↔
      ∃ kw ∈ aiKeywords, isSubList kw.data (lowerStr text).data = true := by
  unfold findKeywords
  constructor
  · intro h
    by_contra hno
    push_neg at hno
    apply h
    apply List.filter_eq_nil_iff.mpr
    intro kw hkw
    simp [hno kw hkw]
  · rintro ⟨kw, hkw, hsub⟩ hnil
    have := List.filter_eq_nil_iff.mp hnil kw hkw
    simp [hsub] at this

theorem groupReasons_eq_nil_iff (n : String) (g : List (String × String)) :
    groupReasons n g = [] ↔ ¬ groupHasAiMatch g := by
  unfold groupReasons groupHasAiMatch
  rw [List.filterMap_eq_nil_iff]
  constructor
  · rintro hall ⟨p, hp, hc, kw, hkw, hsub⟩
    have hthis := hall p hp
    rw [if_pos hc] at hthis
    by_cases he : (findKeywords p.2 aiKeywords).isEmpty = true
    · have hne := (findKeywords_ne_nil_iff p.2).mpr ⟨kw, hkw, hsub⟩
      rw [List.isEmpty_iff] at he
      exact hne he
    · rw [if_neg he] at hthis
      exact Option.some_ne_none _ hthis
  · intro hno p hp
    by_cases hc : candidateTags.contains p.1 = true
    · rw [if_pos hc]
      by_cases he : (findKeywords p.2 aiKeywords).isEmpty = true
      · rw [if_pos he]
      · exfalso
        apply hno
        have hne : ¬ (findKeywords p.2 aiKeywords = []) :=
          fun hnil => he (by simp [hnil, List.isEmpty_iff])
        obtain ⟨kw, hkw, hsub⟩ := (findKeywords_ne_nil_iff p.2).mp hne
        exact ⟨p, hp, hc, kw, hkw, hsub⟩
    · rw [if_neg hc]

theorem mem_groupReasons (n : String) (g : List (String × String)) (r : String)
    (h : r ∈ groupReasons n g) :
    ∃ p ∈ g, candidateTags.contains p.1 = true ∧
      ¬ (findKeywords p.2 aiKeywords = []) ∧
      r = reasonStr n p.1 (findKeywords p.2 aiKeywords) := by
  unfold groupReasons at h
  obtain ⟨p, hp, hf⟩ := List.mem_filterMap.mp h
  by_cases hc : candidateTags.contains p.1 = true
  · rw [if_pos hc] at hf
    by_cases he : (findKeywords p.2 aiKeywords).isEmpty = true
    · rw [if_pos he] at hf
      exact absurd hf (by simp)
    · rw [if_neg he] at hf
      exact ⟨p, hp, hc, fun hnil => he (by simp [hnil, List.isEmpty_iff]),
        (Option.some.inj hf).symm⟩
  · rw [if_neg hc] at hf
    exact absurd hf (by simp)

/-- C7: `detect_ai_from_exif_readable` examines only the candidate allow-list
fields of the 0th, Exif and 1st groups (it is independent of the GPS group);
detected is true iff some examined field matches some keyword
case-insensitively; every reason names the group, the field and the
deduplicated sorted matched keywords; and the Firefly scenario yields
detected with the expected reason. -/
theorem scanReadable_spec :
    (∀ d : ReadableExif,
      (detectAiFromExifReadable d).1 = true ↔
        (groupHasAiMatch d.zeroth ∨ groupHasAiMatch d.exifIfd ∨
          groupHasAiMatch d.first)) ∧
    (∀ z x g g2 f, detectAiFromExifReadable ⟨z, x, g, f⟩ =
      detectAiFromExifReadable ⟨z, x, g2, f⟩) ∧
    (∀ d r, r ∈ (detectAiFromExifReadable d).2 →
      ∃ n gr, (n, gr) ∈ [("0th", d.zeroth), ("Exif", d.exifIfd), ("1st", d.first)] ∧
        ∃ p ∈ gr, candidateTags.contains p.1 = true ∧
          ¬ (findKeywords p.2 aiKeywords = []) ∧
          r = reasonStr n p.1 (findKeywords p.2 aiKeywords)) ∧
    (detectAiFromExifReadable ⟨[("Software", "Adobe Firefly 2.1")], [], [], []⟩ =
      (true, ["0th.Software contains: adobe firefly, firefly"])) := by
  refine ⟨?_, ?_, ?_, ?_⟩
  · intro d
    simp only [detectAiFromExifReadable, decide_eq_true_eq]
    rw [List.length_pos]
    constructor
    · intro hne
      by_contra hno
      push_neg at hno
      apply hne
      rw [(groupReasons_eq_nil_iff "0th" d.zeroth).mpr hno.1,
        (groupReasons_eq_nil_iff "Exif" d.exifIfd).mpr hno.2.1,
        (groupReasons_eq_nil_iff "1st" d.first).mpr hno.2.2]
      rfl
    · intro hsome hnil
      rcases List.append_eq_nil.mp hnil with ⟨h01, h1⟩
      rcases List.append_eq_nil.mp h01 with ⟨h0, hx⟩
      rcases hsome with hz | hx2 | hf
      · exact (groupReasons_eq_nil_iff "0th" d.zeroth).mp h0 hz
      · exact (groupReasons_eq_nil_iff "Exif" d.exifIfd).mp hx hx2
      · exact (groupReasons_eq_nil_iff "1st" d.first).mp h1 hf
  · intro z x g g2 f
    rfl
  · intro d r hr
    simp only [detectAiFromExifReadable] at hr
    rcases List.mem_append.mp hr with h01 | h1
    · rcases List.mem_append.mp h01 with h0 | hx
      · exact ⟨"0th", d.zeroth, by simp, mem_groupReasons _ _ _ h0⟩
      · exact ⟨"Exif", d.exifIfd, by simp, mem_groupReasons _ _ _ hx⟩
    · exact ⟨"1st", d.first, by simp, mem_groupReasons _ _ _ h1⟩
  · decide

/-! ## Orchestrator lemmas -/

theorem makeOutputPath_files (fs : FS) (src : Pth) (o : ModifyOptions) :
    (makeOutputPath fs src o).1.files = fs.files := by
  unfold makeOutputPath
  split
  · rfl
  · split
    · rfl
    · rfl

/-- C2: with dry_run set, `apply_strip_and_replace` never creates, modifies
or deletes any file: the file map is unchanged on every input; and on a
supported file it performs the decode and transform, computes the would-be
destination, and returns success with that destination and no error. -/
theorem dryRun_touches_no_file (fs : FS) (src : Pth) (o : ModifyOptions)
    (hdry : o.dry_run = true) :
    (applyStripAndReplace fs src o).1.files = fs.files ∧
    (∀ f, lookupFile fs src = some f → supportedFormats.contains f.format = true →
      (applyStripAndReplace fs src o).2 =
        (true, none, some (makeOutputPath fs src o).2)) := by
  unfold applyStripAndReplace
  cases hf : lookupFile fs src with
  | none =>
    constructor
    · rfl
    · intro f h _
      exact absurd h (by simp)
  | some f0 =>
    by_cases hs : supportedFormats.contains f0.format = true
    · simp only [hs, Bool.not_true, Bool.false_eq_true, if_false, hdry,
        eq_self_iff_true, if_true]
      constructor
      · exact makeOutputPath_files fs src o
      · intro f h _
        trivial
    · have hs2 : supportedFormats.contains f0.format = false :=
        Bool.eq_false_iff.mpr hs
      simp only [hs2, Bool.not_false, if_true]
      constructor
      · trivial
      · intro f h hsup
        have hff : f = f0 := Option.some.inj h.symm
        rw [hff] at hsup
        exact absurd hsup hs

/-- Closed witness for the dry-run theorem: a one-file filesystem with a
supported JPEG, dry-run with an output directory; the file map is unchanged
and the call reports success with the computed destination. -/
theorem dryRun_touches_no_file_witness :
    (applyStripAndReplace
        ⟨[(⟨true, ["pics", "a.jpg"]⟩, ⟨"JPEG", none, [7, 7]⟩)], []⟩
        ⟨true, ["pics", "a.jpg"]⟩
        ⟨true, some "canon", false, true, false, false, false, none,
          some ⟨true, ["out"]⟩, true, some ⟨true, ["pics"]⟩⟩).1.files =
      [(⟨true, ["pics", "a.jpg"]⟩, ⟨"JPEG", none, [7, 7]⟩)] ∧
    (applyStripAndReplace
        ⟨[(⟨true, ["pics", "a.jpg"]⟩, ⟨"JPEG", none, [7, 7]⟩)], []⟩
        ⟨true, ["pics", "a.jpg"]⟩
        ⟨true, some "canon", false, true, false, false, false, none,
          some ⟨true, ["out"]⟩, true, some ⟨true, ["pics"]⟩⟩).2 =
      (true, none, some (makeOutputPath
        ⟨[(⟨true, ["pics", "a.jpg"]⟩, ⟨"JPEG", none, [7, 7]⟩)], []⟩
        ⟨true, ["pics", "a.jpg"]⟩
        ⟨true, some "canon", false, true, false, false, false, none,
          some ⟨true, ["out"]⟩, true, some ⟨true, ["pics"]⟩⟩).2) := by
  have h := dryRun_touches_no_file
    ⟨[(⟨true, ["pics", "a.jpg"]⟩, ⟨"JPEG", none, [7, 7]⟩)], []⟩
    ⟨true, ["pics", "a.jpg"]⟩
    ⟨true, some "canon", false, true, false, false, false, none,
      some ⟨true, ["out"]⟩, true, some ⟨true, ["pics"]⟩⟩ rfl
  exact ⟨h.1, h.2 ⟨"JPEG", none, [7, 7]⟩ (by decide) (by decide)⟩

theorem applyExtended_preserves (e : ExifDict) (prof mk md : String) :
    (applyExtendedCameraProfile e prof mk md).gps = e.gps ∧
    (applyExtendedCameraProfile e prof mk md).first = e.first ∧
    (applyExtendedCameraProfile e prof mk md).thumbnail = e.thumbnail := by
  unfold applyExtendedCameraProfile setCameraMakeModel
  split
  · exact ⟨rfl, rfl, rfl⟩
  · split
    · exact ⟨rfl, rfl, rfl⟩
    · exact ⟨rfl, rfl, rfl⟩

theorem replaceCameraStep_preserves (o : ModifyOptions) (e : ExifDict) :
    (replaceCameraStep o e).gps = e.gps ∧
    (replaceCameraStep o e).first = e.first ∧
    (replaceCameraStep o e).thumbnail = e.thumbnail := by
  unfold replaceCameraStep
  cases hrc : o.replace_camera with
  | none => exact ⟨rfl, rfl, rfl⟩
  | some s =>
    by_cases hs : (s == "") = true
    · simp only [hs, if_true]
      exact ⟨trivial, trivial, trivial⟩
    · have hs2 : (s == "") = false := Bool.eq_false_iff.mpr hs
      simp only [hs2, Bool.false_eq_true, if_false]
      by_cases hx : o.replace_extended = true
      · simp only [hx, if_true]
        exact applyExtended_preserves e _ _ _
      · have hx2 : o.replace_extended = false := Bool.eq_false_iff.mpr hx
        simp only [hx2, Bool.false_eq_true, if_false]
        exact ⟨rfl, rfl, rfl⟩

theorem transformExif_eq_of_replace (o : ModifyOptions) (e : ExifDict)
    (h : (truthyOptStr o.replace_camera || o.replace_extended) = true) :
    transformExif o e = replaceCameraStep o
      (stripIdentifying e o.preserve_dates o.anonymize_dates o.remove_orientation) := by
  unfold transformExif
  rcases Bool.or_eq_true _ _ ▸ h with hy | hz
  · simp [hy]
  · simp [hz]

/-- C10: whenever a camera replacement (basic or extended) is requested
through the orchestrator, the strip-identifying pass runs over the document
before the replacement: `build_modify_options` forces strip_identifying on,
the transform pipeline equals the replacement applied after
`strip_identifying`, and consequently the location group, the thumbnail
group and the thumbnail blob of the written document are cleared on every
replacement run. -/
theorem replacement_applies_strip :
    (∀ a base, (truthyOptStr a.replace_camera || a.replace_extended) = true →
      (buildModifyOptions a base).strip_identifying = true) ∧
    (∀ o e, (truthyOptStr o.replace_camera || o.replace_extended) = true →
      transformExif o e = replaceCameraStep o
        (stripIdentifying e o.preserve_dates o.anonymize_dates o.remove_orientation)) ∧
    (∀ o e, (truthyOptStr o.replace_camera || o.replace_extended) = true →
      (transformExif o e).gps = [] ∧ (transformExif o e).first = [] ∧
      (transformExif o e).thumbnail = none) := by
  refine ⟨?_, ?_, ?_⟩
  · intro a base h
    show (a.strip_identifying || truthyOptStr a.replace_camera || a.replace_extended) = true
    rcases Bool.or_eq_true _ _ ▸ h with hy | hz
    · simp [hy]
    · simp [hz]
  · intro o e h
    exact transformExif_eq_of_replace o e h
  · intro o e h
    rw [transformExif_eq_of_replace o e h]
    have hp := replaceCameraStep_preserves o
      (stripIdentifying e o.preserve_dates o.anonymize_dates o.remove_orientation)
    exact ⟨hp.1, hp.2.1.trans rfl, hp.2.2.trans rfl⟩

/-- Closed witness for the replacement-implies-strip theorem: a basic
replacement run with no explicit strip request still clears the location
group and thumbnail of a document that has both. -/
theorem replacement_applies_strip_witness :
    (buildModifyOptions
      ⟨false, some "canon", false, true, false, false, false, none, none, false⟩
      none).strip_identifying = true ∧
    (transformExif
      ⟨false, some "canon", false, true, false, false, false, none, none, false, none⟩
      ⟨[], [], [(1, .intVal 3)], [(2, .intVal 4)], some [9, 9]⟩).gps = [] ∧
    (transformExif
      ⟨false, some "canon", false, true, false, false, false, none, none, false, none⟩
      ⟨[], [], [(1, .intVal 3)], [(2, .intVal 4)], some [9, 9]⟩).thumbnail = none := by
  have h1 := replacement_applies_strip.1
    ⟨false, some "canon", false, true, false, false, false, none, none, false⟩
    none (by decide)
  have h3 := replacement_applies_strip.2.2
    ⟨false, some "canon", false, true, false, false, false, none, none, false, none⟩
    ⟨[], [], [(1, .intVal 3)], [(2, .intVal 4)], some [9, 9]⟩ (by decide)
  exact ⟨h1, h3.1, h3.2.2⟩

/-! ## Deep-scan error behaviour -/

/-- C9 counterexample: when the second read raises an I/O error, the scan
returns the match found in the first chunk — a non-empty result list, not
the empty list the claim requires. -/
theorem deepScan_ioError_counterexample :
    ¬ (deepScanEvents [ReadEv.chunk (utf8Encode "xx midjourney yy"),
        ReadEv.ioError] [] 20 = []) := by
  decide

theorem scanLoop_ioError_stops (keys : List String) (pre post : List ReadEv)
    (maxM : Nat) (h : ∀ ev ∈ pre, ev ≠ ReadEv.ioError) :
    ∀ leftover ms,
      scanLoop keys (pre ++ ReadEv.ioError :: post) leftover ms maxM =
        scanLoop keys pre leftover ms maxM := by
  induction pre with
  | nil => intro leftover ms; rfl
  | cons ev rest ih =>
    intro leftover ms
    have hev : ev ≠ ReadEv.ioError := h ev (List.mem_cons_self _ _)
    have h' : ∀ e2 ∈ rest, e2 ≠ ReadEv.ioError :=
      fun e2 he2 => h e2 (List.mem_cons_of_mem _ he2)
    cases ev with
    | ioError => exact absurd rfl hev
    | chunk c =>
      simp only [List.cons_append, scanLoop]
      by_cases hc : c.isEmpty = true
      · rw [if_pos hc, if_pos hc]
      · rw [if_neg hc, if_neg hc]
        by_cases hr : (scanWindow keys (lowerBytes (leftover ++ c)) ms maxM).2 = true
        · rw [if_pos hr, if_pos hr]
        · rw [if_neg hr, if_neg hr]
          exact ih h' _ _

/-- C9 amended: an I/O error during the streaming scan never propagates; the
scan stops and returns exactly the matches collected from the chunks read
before the failure (possibly non-empty) — as if the stream had ended there. -/
theorem deepScan_ioError_keeps_matches (pre post : List ReadEv)
    (extra : List String) (maxM : Nat)
    (h : ∀ ev ∈ pre, ev ≠ ReadEv.ioError) :
    deepScanEvents (pre ++ ReadEv.ioError :: post) extra maxM =
      deepScanEvents pre extra maxM := by
  unfold deepScanEvents
  exact scanLoop_ioError_stops (scanKeys extra) pre post maxM h [] []

/-- Closed witness for the amended deep-scan error theorem. -/
theorem deepScan_ioError_keeps_matches_witness :
    deepScanEvents [ReadEv.chunk [104], ReadEv.ioError] [] 20 =
      deepScanEvents [ReadEv.chunk [104]] [] 20 :=
  deepScan_ioError_keeps_matches [ReadEv.chunk [104]] [] [] 20 (by decide)

/-! ## Codec round-trip lemmas -/

deriving instance DecidableEq for Except

theorem parseInt_enc (i : Int) (r : List Nat) :
    parseInt (encInt i ++ r) = some (i, r) := by
  by_cases hi : i < 0
  · simp only [encInt, if_pos hi, List.cons_append, List.nil_append, parseInt]
    rw [if_pos trivial]
    have hNat : -((i.natAbs : Int)) = i := by omega
    rw [hNat]
    rw [if_neg (by omega : ¬ (1 : Nat) = 0)]
  · simp only [encInt, if_neg hi, List.cons_append, List.nil_append, parseInt]
    rw [if_pos trivial]
    have hNat : ((i.natAbs : Int)) = i := by omega
    rw [hNat]

theorem parseChunk_enc (b r : List Nat) :
    parseChunk b.length (b ++ r) = some (b, r) := by
  unfold parseChunk
  rw [if_pos (by simp)]
  rw [List.take_left, List.drop_left]

theorem parseRatPairs_enc (l : List (Int × Int)) (r : List Nat) :
    parseRatPairs l.length ((l.map encRatPair).flatten ++ r) = some (l, r) := by
  induction l generalizing r with
  | nil => rfl
  | cons p ps ih =>
    simp only [List.map_cons, List.flatten_cons, List.length_cons, encRatPair,
      List.append_assoc]
    simp only [parseRatPairs, parseInt_enc, ih]

theorem parseVal_enc (v : TagValue) (r : List Nat) :
    parseVal (encVal v ++ r) = some (v, r) := by
  cases v with
  | intVal i => simp [encVal, parseVal, parseInt_enc]
  | ratVal n d => simp [encVal, parseVal, parseInt_enc, List.append_assoc]
  | bytesVal b => simp [encVal, parseVal, parseChunk_enc]
  | strVal s =>
    simp only [encVal, List.cons_append, parseVal]
    rw [if_pos trivial]
    have hch := parseChunk_enc (s.data.map Char.toNat) r
    rw [List.length_map] at hch
    rw [hch]
    show some (TagValue.strVal
      (String.mk ((s.data.map Char.toNat).map Char.ofNat)), r) =
      some (TagValue.strVal s, r)
    rw [List.map_map]
    have hid : (Char.ofNat ∘ Char.toNat) = (id : Char → Char) := by
      funext c
      simp [Char.ofNat_toNat]
    rw [hid, List.map_id]
  | ratListVal l => simp [encVal, parseVal, parseRatPairs_enc]

theorem parsePairs_enc (g : List (Nat × TagValue)) (r : List Nat) :
    parsePairs g.length ((g.map (fun p => p.1 :: encVal p.2)).flatten ++ r) =
      some (g, r) := by
  induction g generalizing r with
  | nil => rfl
  | cons p ps ih =>
    simp only [List.map_cons, List.flatten_cons, List.length_cons,
      List.cons_append, List.append_assoc]
    simp only [parsePairs, parseVal_enc, ih]

theorem parseGroup_enc (g : List (Nat × TagValue)) (r : List Nat) :
    parseGroup (encGroup g ++ r) = some (g, r) := by
  simp only [encGroup, List.cons_append, parseGroup, parsePairs_enc]

theorem parseThumb_enc (th : Option (List Nat)) (r : List Nat) :
    parseThumb (encThumb th ++ r) = some (th, r) := by
  cases th with
  | none => rfl
  | some b => simp [encThumb, parseThumb, parseChunk_enc]

theorem parseExif_enc (e : ExifDict) : parseExif (encodeExif e) = some e := by
  unfold parseExif encodeExif
  rw [show encThumb e.thumbnail = encThumb e.thumbnail ++ [] from
    (List.append_nil _).symm]
  simp only [List.append_assoc, parseGroup_enc, parseThumb_enc]
  rfl

/-- C1: for every file and every document that `decode` produces from it,
splicing the encoded document back into the file succeeds, preserves all
non-metadata content, and decoding the result reproduces an equivalent
document — the same four groups with the same tag ids and equal values, and
the same thumbnail. -/
theorem codec_roundtrip (f : FileBlob) (d : ExifDict)
    (h : decodeFile f = Except.ok d) :
    ∃ f2, insertMeta f (encodeExif d) = Except.ok f2 ∧
      decodeFile f2 = Except.ok d ∧ f2.other = f.other ∧ f2.format = f.format := by
  unfold decodeFile at h
  by_cases hs : supportedFormats.contains f.format = true
  · refine ⟨{ f with meta := some (encodeExif d) }, ?_, ?_, rfl, rfl⟩
    · unfold insertMeta
      rw [if_pos hs]
    · unfold decodeFile
      rw [if_pos hs]
      show Except.ok ((parseExif (encodeExif d)).getD emptyExif) = Except.ok d
      rw [parseExif_enc]
      rfl
  · rw [if_neg hs] at h
    exact absurd h (by simp)

/-- Closed witness for the codec round-trip on a JPEG container carrying a
document with one tag in each flavour. -/
theorem codec_roundtrip_witness :
    ∃ f2, insertMeta
        ⟨"JPEG", some (encodeExif ⟨[(271, .strVal "X")],
          [(33437, .ratVal 28 10), (34855, .intVal 100)], [],
          [(5, .bytesVal [1, 2])], some [9]⟩), [3, 4]⟩
        (encodeExif ⟨[(271, .strVal "X")],
          [(33437, .ratVal 28 10), (34855, .intVal 100)], [],
          [(5, .bytesVal [1, 2])], some [9]⟩) = Except.ok f2 ∧
      decodeFile f2 = Except.ok ⟨[(271, .strVal "X")],
        [(33437, .ratVal 28 10), (34855, .intVal 100)], [],
        [(5, .bytesVal [1, 2])], some [9]⟩ ∧
      f2.other = [3, 4] ∧ f2.format = "JPEG" :=
  codec_roundtrip
    ⟨"JPEG", some (encodeExif ⟨[(271, .strVal "X")],
      [(33437, .ratVal 28 10), (34855, .intVal 100)], [],
      [(5, .bytesVal [1, 2])], some [9]⟩), [3, 4]⟩
    ⟨[(271, .strVal "X")], [(33437, .ratVal 28 10), (34855, .intVal 100)], [],
      [(5, .bytesVal [1, 2])], some [9]⟩
    (by decide)

/-! ## Chunk-boundary completeness of the streaming scan -/

theorem lowerBytes_append (a b : List Nat) :
    lowerBytes (a ++ b) = lowerBytes a ++ lowerBytes b :=
  List.map_append _ _ _

theorem takeLast_map (k : Nat) (f : Nat → Nat) (l : List Nat) :
    takeLast k (l.map f) = (takeLast k l).map f := by
  unfold takeLast
  rw [List.map_drop, List.length_map]

theorem infix_of_infix_takeLast {kb W : List α} (k : Nat)
    (h : kb <:+: takeLast k W) : kb <:+: W :=
  h.trans (takeLast_suffix k W).isInfix

/-- An occurrence of `kb` (of length at most 65) in `W ++ R` lies either
wholly inside `W`, or inside the last 64 elements of `W` glued to `R` — the
overlap argument behind the chunked scan. -/
theorem infix_window_split (kb W R : List α) (hk : kb.length ≤ 65)
    (h : kb <:+: (W ++ R)) :
    kb <:+: W ∨ kb <:+: (takeLast 64 W ++ R) := by
  rcases h with ⟨s, t, hst⟩
  have hst' : s ++ (kb ++ t) = W ++ R := by
    simpa [List.append_assoc] using hst
  rcases List.append_eq_append_iff.mp hst' with ⟨w2, hw, hr⟩ | ⟨c2, hsw, hr⟩
  · -- W = s ++ w2 and kb ++ t = w2 ++ R
    rcases List.append_eq_append_iff.mp hr with ⟨a2, ha, ht⟩ | ⟨c3, hkb, hR⟩
    · -- w2 = kb ++ a2: kb sits inside W
      left
      exact ⟨s, a2, by rw [hw, ha, List.append_assoc]⟩
    · -- kb = w2 ++ c3 and R = c3 ++ t: kb straddles the boundary
      by_cases hc3 : c3 = []
      · left
        subst hc3
        rw [List.append_nil] at hkb
        exact ⟨s, [], by rw [hw, ← hkb, List.append_nil]⟩
      · right
        have hw2len : w2.length ≤ 64 := by
          have h1 : kb.length = w2.length + c3.length := by
            rw [hkb, List.length_append]
          have h2 : 0 < c3.length := List.length_pos.mpr hc3
          omega
        have hw2suf : w2 <:+ W := ⟨s, hw.symm⟩
        obtain ⟨w3, hw3⟩ := suffix_takeLast hw2suf 64 hw2len
        exact ⟨w3, t, by rw [← hw3, hR, hkb]; simp [List.append_assoc]⟩
  · -- s = W ++ c2 and R = c2 ++ (kb ++ t): kb sits inside R
    right
    exact ⟨takeLast 64 W ++ c2, t, by rw [hr]; simp [List.append_assoc]⟩

theorem scanWindow_props (allMsgs : List String)
    (maxM : Nat) (hC : allMsgs.length < maxM) (low : List Nat) :
    ∀ (keys2 : List String) (ms : List String),
      (∀ k2 ∈ keys2, msgFor k2 ∈ allMsgs) →
      (∀ m ∈ ms, m ∈ allMsgs) → ms.Nodup →
      (scanWindow keys2 low ms maxM).2 = false ∧
      (∀ m ∈ ms, m ∈ (scanWindow keys2 low ms maxM).1) ∧
      (∀ m ∈ (scanWindow keys2 low ms maxM).1, m ∈ allMsgs) ∧
      (scanWindow keys2 low ms maxM).1.Nodup ∧
      (∀ k2 ∈ keys2, isSubList (utf8Encode k2) low = true →
        msgFor k2 ∈ (scanWindow keys2 low ms maxM).1) := by
  intro keys2
  induction keys2 with
  | nil =>
    intro ms _ hms hnd
    exact ⟨rfl, fun m hm => hm, hms, hnd, by simp⟩
  | cons k2 rest ih =>
    intro ms hsub hms hnd
    have hsub' : ∀ k3 ∈ rest, msgFor k3 ∈ allMsgs :=
      fun k3 hk3 => hsub k3 (List.mem_cons_of_mem _ hk3)
    by_cases hf : isSubList (utf8Encode k2) low = true
    · by_cases hmem : ms.contains (msgFor k2) = true
      · have hmem' : msgFor k2 ∈ ms := by simpa using hmem
        have step : scanWindow (k2 :: rest) low ms maxM =
            scanWindow rest low ms maxM := by
          simp only [scanWindow, hf, if_true, hmem, if_pos]
        obtain ⟨f1, f2, f3, f4, f5⟩ := ih ms hsub' hms hnd
        rw [step]
        refine ⟨f1, f2, f3, f4, ?_⟩
        intro k3 hk3 hf3
        rcases List.mem_cons.mp hk3 with rfl | hk3
        · exact f2 _ hmem'
        · exact f5 k3 hk3 hf3
      · have hmem' : msgFor k2 ∉ ms := by simpa using hmem
        have hms2 : ∀ m ∈ ms ++ [msgFor k2], m ∈ allMsgs := by
          intro m hm
          rcases List.mem_append.mp hm with hm | hm
          · exact hms m hm
          · rw [List.mem_singleton.mp hm]
            exact hsub k2 (List.mem_cons_self _ _)
        have hnd2 : (ms ++ [msgFor k2]).Nodup := by
          rw [List.nodup_append]
          exact ⟨hnd, List.nodup_singleton _, by simpa using hmem'⟩
        have hlen2 : (ms ++ [msgFor k2]).length < maxM := by
          have hsp := (hnd2.subperm hms2).length_le
          omega
        have step : scanWindow (k2 :: rest) low ms maxM =
            scanWindow rest low (ms ++ [msgFor k2]) maxM := by
          simp only [scanWindow, hf, if_true, hmem, Bool.false_eq_true, if_false]
          rw [if_neg (by omega)]
        obtain ⟨f1, f2, f3, f4, f5⟩ := ih (ms ++ [msgFor k2]) hsub' hms2 hnd2
        rw [step]
        refine ⟨f1, ?_, f3, f4, ?_⟩
        · intro m hm
          exact f2 m (List.mem_append_left _ hm)
        · intro k3 hk3 hf3
          rcases List.mem_cons.mp hk3 with rfl | hk3
          · exact f2 _ (List.mem_append_right _ (List.mem_singleton_self _))
          · exact f5 k3 hk3 hf3
    · have step : scanWindow (k2 :: rest) low ms maxM =
          scanWindow rest low ms maxM := by
        simp only [scanWindow, hf, Bool.false_eq_true, if_false]
      obtain ⟨f1, f2, f3, f4, f5⟩ := ih ms hsub' hms hnd
      rw [step]
      refine ⟨f1, f2, f3, f4, ?_⟩
      intro k3 hk3 hf3
      rcases List.mem_cons.mp hk3 with rfl | hk3
      · exact absurd hf3 hf
      · exact f5 k3 hk3 hf3

theorem scanLoop_complete (keys : List String) (maxM : Nat) (kw : String)
    (hkw : kw ∈ keys)
    (hkl : (utf8Encode kw).length ≤ 65)
    (hC : (keys.map msgFor).length < maxM) :
    ∀ (cs : List (List Nat)) (leftover : List Nat) (ms : List String),
      (∀ c ∈ cs, c ≠ []) →
      (∀ m ∈ ms, m ∈ keys.map msgFor) →
      ms.Nodup →
      (msgFor kw ∈ ms ∨
        ((utf8Encode kw) <:+: lowerBytes (leftover ++ cs.flatten) ∧
          ((utf8Encode kw) <:+: lowerBytes leftover → msgFor kw ∈ ms))) →
      msgFor kw ∈ scanLoop keys (cs.map ReadEv.chunk) leftover ms maxM := by
  intro cs
  induction cs with
  | nil =>
    intro leftover ms _ _ _ hinv
    show msgFor kw ∈ scanLoop keys [] leftover ms maxM
    rcases hinv with h | ⟨h1, h2⟩
    · exact h
    · refine h2 ?_
      rw [List.flatten_nil, List.append_nil] at h1
      exact h1
  | cons c rest ih =>
    intro leftover ms hcs hms hnd hinv
    have hcne : c ≠ [] := hcs c (List.mem_cons_self _ _)
    have hcE : c.isEmpty = false :=
      Bool.eq_false_iff.mpr (fun hT => hcne (List.isEmpty_iff.mp hT))
    have hkeys : ∀ k2 ∈ keys, msgFor k2 ∈ keys.map msgFor :=
      fun k2 hk2 => List.mem_map_of_mem _ hk2
    obtain ⟨f1, f2, f3, f4, f5⟩ := scanWindow_props (keys.map msgFor) maxM hC
      (lowerBytes (leftover ++ c)) keys ms hkeys hms hnd
    have step : scanLoop keys ((c :: rest).map ReadEv.chunk) leftover ms maxM =
        scanLoop keys (rest.map ReadEv.chunk) (takeLast 64 (leftover ++ c))
          (scanWindow keys (lowerBytes (leftover ++ c)) ms maxM).1 maxM := by
      simp only [List.map_cons, scanLoop, hcE, Bool.false_eq_true, if_false]
      rw [if_neg (by rw [f1]; exact Bool.false_ne_true)]
    rw [step]
    apply ih (takeLast 64 (leftover ++ c)) _
      (fun c2 hc2 => hcs c2 (List.mem_cons_of_mem _ hc2)) f3 f4
    rcases hinv with h | ⟨h1, h2⟩
    · exact Or.inl (f2 _ h)
    · rw [List.flatten_cons, ← List.append_assoc, lowerBytes_append] at h1
      rcases infix_window_split (utf8Encode kw) (lowerBytes (leftover ++ c))
        (lowerBytes rest.flatten) hkl h1 with hA | hB
      · exact Or.inl (f5 kw hkw ((isSubList_correct _ _).mpr hA))
      · right
        have hTL : takeLast 64 (lowerBytes (leftover ++ c)) =
            lowerBytes (takeLast 64 (leftover ++ c)) := by
          simp only [lowerBytes]
          exact takeLast_map 64 toLowerByte (leftover ++ c)
        constructor
        · rw [lowerBytes_append]
          rw [hTL] at hB
          exact hB
        · intro hocc
          apply f5 kw hkw
          apply (isSubList_correct _ _).mpr
          apply infix_of_infix_takeLast 64
          rw [hTL]
          exact hocc

/-- C6: the 64-byte overlap carried across chunk boundaries is at least as
long as the longest scanned keyword minus one byte, and consequently, for
every file and every keyword in the scanned list, any occurrence of the
keyword in the (lowered) file bytes — in particular one split exactly across
a chunk boundary — is detected by the streaming scan. -/
theorem deepScan_overlap_complete :
    (∀ kw ∈ scanKeys [], (utf8Encode kw).length - 1 ≤ 64) ∧
    (∀ (file : List Nat) (kw : String), kw ∈ scanKeys [] →
      isSubList (utf8Encode kw) (lowerBytes file) = true →
      msgFor kw ∈ deepScanBytes file [] 20) := by
  constructor
  · decide
  · intro file kw hkw hocc
    have hkl : (utf8Encode kw).length ≤ 65 :=
      (by decide : ∀ k2 ∈ scanKeys [], (utf8Encode k2).length ≤ 65) kw hkw
    have hkne : utf8Encode kw ≠ [] :=
      (by decide : ∀ k2 ∈ scanKeys [], utf8Encode k2 ≠ []) kw hkw
    have hC : ((scanKeys []).map msgFor).length < 20 := by decide
    unfold deepScanBytes deepScanEvents
    apply scanLoop_complete (scanKeys []) 20 kw hkw hkl hC
      (chunksOf chunkSize file) [] [] (chunksOf_ne_nil _ _) (by simp)
      List.nodup_nil
    right
    constructor
    · rw [flatten_chunksOf chunkSize (by decide) file, List.nil_append]
      exact (isSubList_correct _ _).mp hocc
    · intro hx
      have : utf8Encode kw = [] := List.eq_nil_of_infix_nil hx
      exact absurd this hkne

/-- Closed witness for the overlap-completeness theorem: the longest
keyword fits the overlap, and a file containing "Midjourney" is detected. -/
theorem deepScan_overlap_complete_witness :
    (utf8Encode "stable diffusion").length - 1 ≤ 64 ∧
    msgFor "midjourney" ∈ deepScanBytes (utf8Encode "AA Midjourney BB") [] 20 :=
  ⟨deepScan_overlap_complete.1 "stable diffusion" (by decide),
    deepScan_overlap_complete.2 (utf8Encode "AA Midjourney BB") "midjourney"
      (by decide) (by decide)⟩
